import Mathlib

/-!
Shallow embedding of the hyperflut pixelflut client (Rust) and proofs about it.

Sources embedded:
- `src/color.rs` (`Color`, `Color::write_hex`, the thread-local `STRING_BUFFER`),
- `build.rs` (the generated `HEX_TO_STR_8` / `HEX_TO_STR_16` lookup tables),
- `src/pix/client.rs` (`write_pixel_noformat`, the `TextTcpClient` batch-mode
  state machine, `read_screen_size`, `Pingv6Client::send_pixel`),
- `src/painter/icmp.rs` (`Icmp` packet assembly, checksum, `send`),
- `src/painter/painter.rs` (`Painter::work` pixel iteration),
- `src/pix/canvas.rs` (`Canvas::spawn_painters` slice partitioning, painter
  offset selection).

Strings are modelled as `List Char`; all machine integers (`u8`, `u16`, `u32`)
are modelled as `Nat`, with explicit `% 2 ^ w` exactly where the Rust code can
wrap (the ICMP checksum accumulator, the sequence-number increment).  Stateful
code is modelled by explicit state passing.
-/

/-- RGBA color, from `src/color.rs`.  Channels are `u8` in the source; the
model uses `Nat` and carries `< 256` bounds as hypotheses where they matter. -/
structure Color where
  r : Nat
  g : Nat
  b : Nat
  a : Nat
deriving DecidableEq, Repr

/-- Uppercase hexadecimal digit for `n < 16`, as produced by Rust
`format!` with the `:02X` spec in `build.rs`. -/
def hexDigit (n : Nat) : Char :=
  if n < 10 then Char.ofNat (48 + n) else Char.ofNat (55 + n)

/-- Entry `b` of the generated table `HEX_TO_STR_8` from `build.rs`: the
two-character uppercase hex encoding of the byte `b` (table domain
`0 ..= 255`; all call sites index it with a `u8`). -/
def HEX_TO_STR_8 (b : Nat) : List Char :=
  [hexDigit (b / 16), hexDigit (b % 16)]

/-- Entry `n` of the generated table `HEX_TO_STR_16` from `build.rs`: the
decimal ASCII string of `n`, no padding (table domain `0 ..= 5000`; indexing
above that panics in Rust, and no claim exercises it). -/
def HEX_TO_STR_16 (n : Nat) : List Char :=
  (Nat.repr n).toList

/-- Initial content of the thread-local `STRING_BUFFER` in `src/color.rs`
(`Cell::new("000000FF".into())`). -/
def initScratch : List Char :=
  "000000FF".toList

/-- `Color::write_hex` from `src/color.rs`.  `scratch` is the 8-character
thread-local `STRING_BUFFER` of the calling thread, `sink` the output string.
The code overwrites scratch positions 0..6 with the `r`, `g`, `b` hex digits,
overwrites positions 6..8 with the `a` hex digits only when `a != 0xFF`, and
then pushes the entire scratch buffer into the sink.  Returns
`(new scratch, new sink)`. -/
def Color.write_hex (c : Color) (scratch sink : List Char) : List Char × List Char :=
  let scratch' :=
    HEX_TO_STR_8 c.r ++ HEX_TO_STR_8 c.g ++ HEX_TO_STR_8 c.b ++
      (if c.a ≠ 255 then HEX_TO_STR_8 c.a else scratch.drop 6)
  (scratch', sink ++ scratch')

/-- `write_pixel_noformat` from `src/pix/client.rs`: appends
`"PX " x " " y " " hex-color "\n"` to `buffer`.  Threads the thread-local
scratch through the `Color::write_hex` call.  Returns
`(new scratch, new buffer)`. -/
def write_pixel_noformat (x y : Nat) (c : Color) (scratch buffer : List Char) :
    List Char × List Char :=
  let buffer1 := buffer ++ "PX ".toList ++ HEX_TO_STR_16 x ++ [' '] ++
    HEX_TO_STR_16 y ++ [' ']
  let p := c.write_hex scratch buffer1
  (p.1, p.2 ++ ['\n'])

/-- Value of a single uppercase-hex / decimal digit character. -/
def hexVal (c : Char) : Nat :=
  if 48 ≤ c.toNat ∧ c.toNat ≤ 57 then c.toNat - 48
  else if 65 ≤ c.toNat ∧ c.toNat ≤ 70 then c.toNat - 55
  else 0

/-- Parse a two-character hex pair back to a byte. -/
def hexPairVal (l : List Char) : Nat :=
  match l with
  | [c1, c2] => hexVal c1 * 16 + hexVal c2
  | _ => 0

/-- Parse an 8-character `RRGGBBAA` string back to a color. -/
def parseRGBA (l : List Char) : Color :=
  ⟨hexPairVal (l.take 2), hexPairVal ((l.drop 2).take 2),
    hexPairVal ((l.drop 4).take 2), hexPairVal (l.drop 6)⟩

theorem hex8_length (b : Nat) : (HEX_TO_STR_8 b).length = 2 := rfl

set_option maxRecDepth 8192 in
theorem hex8_roundtrip : ∀ b < 256, hexPairVal (HEX_TO_STR_8 b) = b := by decide

/-- `Color::write_hex` appends the sink with the whole 8-character scratch
buffer, so the appended block always has length 8 (never 6), independent of
the alpha channel. -/
theorem write_hex_appends_scratch (c : Color) (scratch sink : List Char)
    (hs : scratch.length = 8) :
    (c.write_hex scratch sink).2 = sink ++ (c.write_hex scratch sink).1 ∧
    (c.write_hex scratch sink).1.length = 8 := by
  constructor
  · rfl
  · by_cases h : c.a = 255 <;>
      simp [Color.write_hex, HEX_TO_STR_8, h, hs]

/-- Claim C1 (counterexample): on a fresh thread, the encoded PX command for
pixel (10,20) with the fully opaque color 0x12/0x34/0x56/0xFF is
`"PX 10 20 123456FF\n"`, not `"PX 10 20 123456\n"` as claimed, and
`write_hex` appends 8 characters, not 6. -/
theorem claim_C1_cex :
    (write_pixel_noformat 10 20 ⟨0x12, 0x34, 0x56, 0xFF⟩ initScratch []).2 ≠
      "PX 10 20 123456\n".toList ∧
    ((Color.mk 0x12 0x34 0x56 0xFF).write_hex initScratch []).2.length = 8 := by
  decide

/-- Claim C1 (amended): `Color::write_hex` always appends exactly 8 characters
to the sink.  When `c.a ≠ 0xFF` they are `RRGGBBAA` and parse back to `c`;
when `c.a = 0xFF` they are `RRGGBB` followed by whatever characters positions
6..8 of the thread-local scratch buffer currently hold.  Consequently, on a
fresh thread (scratch `"000000FF"`), the encoded PX command for pixel (10,20)
with color 0x12/0x34/0x56/0xFF is exactly `"PX 10 20 123456FF\n"`, and with
alpha 0x80 exactly `"PX 10 20 12345680\n"`. -/
theorem claim_C1 (c : Color) (scratch sink : List Char)
    (hr : c.r < 256) (hg : c.g < 256) (hb : c.b < 256) (ha : c.a < 256)
    (hs : scratch.length = 8) :
    (c.write_hex scratch sink).2 = sink ++ (c.write_hex scratch sink).1 ∧
    (c.write_hex scratch sink).1.length = 8 ∧
    (c.a ≠ 255 → parseRGBA (c.write_hex scratch sink).1 = c) ∧
    (c.a = 255 → (c.write_hex scratch sink).1 =
      HEX_TO_STR_8 c.r ++ HEX_TO_STR_8 c.g ++ HEX_TO_STR_8 c.b ++ scratch.drop 6) ∧
    (write_pixel_noformat 10 20 ⟨0x12, 0x34, 0x56, 0xFF⟩ initScratch []).2 =
      "PX 10 20 123456FF\n".toList ∧
    (write_pixel_noformat 10 20 ⟨0x12, 0x34, 0x56, 0x80⟩ initScratch []).2 =
      "PX 10 20 12345680\n".toList := by
  obtain ⟨h1, h2⟩ := write_hex_appends_scratch c scratch sink hs
  refine ⟨h1, h2, ?_, ?_, by decide, by decide⟩
  · intro hne
    have e : (c.write_hex scratch sink).1 =
        HEX_TO_STR_8 c.r ++ HEX_TO_STR_8 c.g ++ HEX_TO_STR_8 c.b ++
          HEX_TO_STR_8 c.a := by
      simp [Color.write_hex, hne]
    rw [e]
    show Color.mk
      (hexPairVal (HEX_TO_STR_8 c.r)) (hexPairVal (HEX_TO_STR_8 c.g))
      (hexPairVal (HEX_TO_STR_8 c.b)) (hexPairVal (HEX_TO_STR_8 c.a)) = c
    rw [hex8_roundtrip c.r hr, hex8_roundtrip c.g hg,
      hex8_roundtrip c.b hb, hex8_roundtrip c.a ha]
  · intro heq
    simp [Color.write_hex, heq]

/-- Witness for claim C1 at color 0x12/0x34/0x56/0x80 on a fresh thread. -/
theorem claim_C1_witness :
    ((Color.mk 0x12 0x34 0x56 0x80).write_hex initScratch []).2 =
      [] ++ ((Color.mk 0x12 0x34 0x56 0x80).write_hex initScratch []).1 ∧
    ((Color.mk 0x12 0x34 0x56 0x80).write_hex initScratch []).1.length = 8 ∧
    ((0x80 : Nat) ≠ 255 →
      parseRGBA ((Color.mk 0x12 0x34 0x56 0x80).write_hex initScratch []).1 =
        Color.mk 0x12 0x34 0x56 0x80) :=
  have h := claim_C1 ⟨0x12, 0x34, 0x56, 0x80⟩ initScratch []
    (by decide) (by decide) (by decide) (by decide) (by decide)
  ⟨h.1, h.2.1, h.2.2.1⟩

/-- Claim C10: `Color::write_hex` always appends exactly 8 characters (never
6): the first six are the `r`, `g`, `b` hex digits; the last two are the alpha
hex digits when `a ≠ 0xFF` and otherwise whatever the scratch buffer holds at
positions 6..8 (`"FF"` on a fresh thread); and two calls with identical
arguments can append different characters depending on prior calls on the same
thread. -/
theorem claim_C10 :
    (∀ (c : Color) (scratch sink : List Char), scratch.length = 8 →
      ∃ app : List Char,
        (c.write_hex scratch sink).2 = sink ++ app ∧
        app.length = 8 ∧ app.length ≠ 6 ∧
        (c.write_hex scratch sink).1 = app ∧
        app.take 6 = HEX_TO_STR_8 c.r ++ HEX_TO_STR_8 c.g ++ HEX_TO_STR_8 c.b ∧
        (c.a ≠ 255 → app.drop 6 = HEX_TO_STR_8 c.a) ∧
        (c.a = 255 → app.drop 6 = scratch.drop 6)) ∧
    initScratch.drop 6 = "FF".toList ∧
    ((Color.mk 0x12 0x34 0x56 0xFF).write_hex initScratch []).2 ≠
      ((Color.mk 0x12 0x34 0x56 0xFF).write_hex
        ((Color.mk 0 0 0 0x80).write_hex initScratch []).1 []).2 := by
  refine ⟨?_, by decide, by decide⟩
  intro c scratch sink hs
  obtain ⟨h1, h2⟩ := write_hex_appends_scratch c scratch sink hs
  refine ⟨(c.write_hex scratch sink).1, h1, h2, by omega, rfl, ?_, ?_, ?_⟩
  · by_cases h : c.a = 255 <;> simp [Color.write_hex, HEX_TO_STR_8, h]
  · intro hne
    simp [Color.write_hex, HEX_TO_STR_8, hne]
  · intro heq
    simp [Color.write_hex, HEX_TO_STR_8, heq]

/-- Witness for claim C10's universally quantified part, at a fresh thread
and the color 0x12/0x34/0x56/0xFF with empty sink. -/
theorem claim_C10_witness :
    initScratch.length = 8 ∧
    ∃ app : List Char,
      ((Color.mk 0x12 0x34 0x56 0xFF).write_hex initScratch []).2 = [] ++ app ∧
      app.length = 8 ∧ app.length ≠ 6 ∧
      ((Color.mk 0x12 0x34 0x56 0xFF).write_hex initScratch []).1 = app ∧
      app.take 6 = HEX_TO_STR_8 0x12 ++ HEX_TO_STR_8 0x34 ++ HEX_TO_STR_8 0x56 ∧
      ((0xFF : Nat) ≠ 255 → app.drop 6 = HEX_TO_STR_8 0xFF) ∧
      ((0xFF : Nat) = 255 → app.drop 6 = initScratch.drop 6) :=
  ⟨by decide, claim_C10.1 ⟨0x12, 0x34, 0x56, 0xFF⟩ initScratch [] (by decide)⟩

/-- State of a `TextTcpClient` from `src/pix/client.rs`.  `written` models the
bytes this client has written to its buffered TCP stream; `scratch` is the
thread-local `STRING_BUFFER` of the painter thread driving the client (the
`flush` flag only forces stream flushes and never changes which bytes are
written, so it is carried but unused). -/
structure TextTcpClient where
  written : List Char
  flush : Bool
  buffer : List Char
  should_buffer : Bool
  is_buffer_ready : Bool
  scratch : List Char
deriving DecidableEq, Repr

/-- `TextTcpClient::write_pixel`: clear the formatting buffer, format the PX
command into it, write it to the stream via `write_command`. -/
def TextTcpClient.write_pixel (st : TextTcpClient) (x y : Nat) (c : Color) :
    TextTcpClient :=
  let p := write_pixel_noformat x y c st.scratch []
  { st with written := st.written ++ p.2, scratch := p.1 }

/-- `send_pixel` of `impl PixelClient for TextTcpClient`: in batch mode the
pixel is appended to the batch buffer only while the batch is not yet ready;
otherwise the pixel is written through directly. -/
def TextTcpClient.send_pixel (st : TextTcpClient) (x y : Nat) (c : Color) :
    TextTcpClient :=
  if st.should_buffer then
    if ¬st.is_buffer_ready then
      let p := write_pixel_noformat x y c st.scratch st.buffer
      { st with buffer := p.2, scratch := p.1 }
    else st
  else st.write_pixel x y c

/-- `flush_pixels` of `impl PixelClient for TextTcpClient`: in batch mode,
mark the batch ready and write the batch buffer plus one newline to the
stream; otherwise do nothing. -/
def TextTcpClient.flush_pixels (st : TextTcpClient) : TextTcpClient :=
  if st.should_buffer then
    { st with is_buffer_ready := true,
              written := st.written ++ st.buffer ++ ['\n'] }
  else st

/-- `clear_buffers` of `impl PixelClient for TextTcpClient`. -/
def TextTcpClient.clear_buffers (st : TextTcpClient) : TextTcpClient :=
  { st with is_buffer_ready := false, buffer := [] }

/-- One `PixelClient` call a painter can make between two `clear_buffers`. -/
inductive ClientOp
  | send (x y : Nat) (c : Color)
  | flush
deriving DecidableEq, Repr

/-- Run a sequence of `PixelClient` calls against a `TextTcpClient`. -/
def TextTcpClient.runOps (st : TextTcpClient) : List ClientOp → TextTcpClient
  | [] => st
  | ClientOp.send x y c :: ops => (st.send_pixel x y c).runOps ops
  | ClientOp.flush :: ops => st.flush_pixels.runOps ops

/-- Stream bytes produced by the flush operations of `ops` when the batch
buffer holds `buf` throughout. -/
def flushOutputs (buf : List Char) : List ClientOp → List Char
  | [] => []
  | ClientOp.send _ _ _ :: ops => flushOutputs buf ops
  | ClientOp.flush :: ops => buf ++ '\n' :: flushOutputs buf ops

/-- Once the batch is ready, any sequence of `send_pixel` / `flush_pixels`
calls leaves the batch buffer and the mode flags unchanged and appends to the
stream exactly one copy of the batch buffer plus a newline per flush. -/
theorem runOps_batch_ready (ops : List ClientOp) (st : TextTcpClient)
    (hb : st.should_buffer = true) (hr : st.is_buffer_ready = true) :
    (st.runOps ops).buffer = st.buffer ∧
    (st.runOps ops).is_buffer_ready = true ∧
    (st.runOps ops).should_buffer = true ∧
    (st.runOps ops).written = st.written ++ flushOutputs st.buffer ops := by
  induction ops generalizing st with
  | nil => simpa [TextTcpClient.runOps, flushOutputs] using ⟨hr, hb⟩
  | cons op ops ih =>
    cases op with
    | send x y c =>
      have e : st.send_pixel x y c = st := by
        simp [TextTcpClient.send_pixel, hb, hr]
      rw [TextTcpClient.runOps, e]
      exact ih st hb hr
    | flush =>
      rw [TextTcpClient.runOps]
      have hb' : st.flush_pixels.should_buffer = true := by
        simp [TextTcpClient.flush_pixels, hb]
      have hr' : st.flush_pixels.is_buffer_ready = true := by
        simp [TextTcpClient.flush_pixels, hb]
      obtain ⟨e1, e2, e3, e4⟩ := ih st.flush_pixels hb' hr'
      have ebuf : st.flush_pixels.buffer = st.buffer := by
        simp [TextTcpClient.flush_pixels, hb]
      have ew : st.flush_pixels.written = st.written ++ st.buffer ++ ['\n'] := by
        simp [TextTcpClient.flush_pixels, hb]
      refine ⟨by rw [e1, ebuf], e2, e3, ?_⟩
      rw [e4, ebuf, ew, flushOutputs]
      simp

/-- Claim C5: for a `TextTcpClient` in batch mode, `flush_pixels` sets the
batch-ready flag; once it is set, every `send_pixel` leaves the batch buffer
unchanged and every further `flush_pixels` writes exactly the batch buffer
followed by one newline to the stream; `clear_buffers` empties the buffer and
clears the batch-ready flag. -/
theorem claim_C5 :
    (∀ st : TextTcpClient, st.should_buffer = true →
      st.flush_pixels.is_buffer_ready = true ∧
      st.flush_pixels.buffer = st.buffer ∧
      st.flush_pixels.written = st.written ++ st.buffer ++ ['\n']) ∧
    (∀ (st : TextTcpClient) (ops : List ClientOp),
      st.should_buffer = true → st.is_buffer_ready = true →
      (st.runOps ops).buffer = st.buffer ∧
      (st.runOps ops).is_buffer_ready = true ∧
      (st.runOps ops).written = st.written ++ flushOutputs st.buffer ops) ∧
    (∀ st : TextTcpClient,
      st.clear_buffers.buffer = [] ∧ st.clear_buffers.is_buffer_ready = false) := by
  refine ⟨?_, ?_, ?_⟩
  · intro st hb
    refine ⟨?_, ?_, ?_⟩ <;> simp [TextTcpClient.flush_pixels, hb]
  · intro st ops hb hr
    obtain ⟨e1, e2, _, e4⟩ := runOps_batch_ready ops st hb hr
    exact ⟨e1, e2, e4⟩
  · intro st
    exact ⟨rfl, rfl⟩

/-- Witness for claim C5: a ready batch client holding one PX line, driven by
a send followed by a flush, keeps its buffer and replays it plus a newline. -/
theorem claim_C5_witness :
    (TextTcpClient.runOps
        ⟨[], false, "PX 0 0 FF0000\n".toList, true, true, initScratch⟩
        [ClientOp.send 1 2 ⟨3, 4, 5, 6⟩, ClientOp.flush]).buffer =
      "PX 0 0 FF0000\n".toList ∧
    (TextTcpClient.runOps
        ⟨[], false, "PX 0 0 FF0000\n".toList, true, true, initScratch⟩
        [ClientOp.send 1 2 ⟨3, 4, 5, 6⟩, ClientOp.flush]).is_buffer_ready = true ∧
    (TextTcpClient.runOps
        ⟨[], false, "PX 0 0 FF0000\n".toList, true, true, initScratch⟩
        [ClientOp.send 1 2 ⟨3, 4, 5, 6⟩, ClientOp.flush]).written =
      [] ++ flushOutputs ("PX 0 0 FF0000\n".toList)
        [ClientOp.send 1 2 ⟨3, 4, 5, 6⟩, ClientOp.flush] :=
  claim_C5.2.1 ⟨[], false, "PX 0 0 FF0000\n".toList, true, true, initScratch⟩
    [ClientOp.send 1 2 ⟨3, 4, 5, 6⟩, ClientOp.flush] rfl rfl

/-- Modelled from the spec: `Rect — {x, y, w, h: u16}, all non-negative,
half-open` (the module `src/rect.rs` itself is not among the provided
sources; only its uses in `canvas.rs` and `painter.rs` are). -/
structure Rect where
  x : Nat
  y : Nat
  w : Nat
  h : Nat
deriving DecidableEq, Repr

/-- Membership of a point in the half-open rectangle. -/
def Rect.contains (r : Rect) (p : Nat × Nat) : Prop :=
  r.x ≤ p.1 ∧ p.1 < r.x + r.w ∧ r.y ≤ p.2 ∧ p.2 < r.y + r.h

instance (r : Rect) (p : Nat × Nat) : Decidable (r.contains p) := by
  unfold Rect.contains
  infer_instance

/-- The pixels sent by one scanline-mode pass of `Painter::work`
(`src/painter/painter.rs`, default branch), for a pass during which no
fresher frame arrives: nested loops `for x in 0..area.w { for y in 0..area.h
}`, skipping pixels whose alpha channel is 0, sending
`(x + area.x + offset.0, y + area.y + offset.1, color)`. -/
def Painter.scanlineSends (area : Rect) (off : Nat × Nat)
    (img : Nat → Nat → Color) : List (Nat × Nat × Color) :=
  (List.range area.w).flatMap fun x =>
    (List.range area.h).filterMap fun y =>
      if (img x y).a = 0 then none
      else some (x + area.x + off.1, y + area.y + off.2, img x y)

/-- The pixels sent by one slow-paint-mode pass of `Painter::work`
(`src/painter/painter.rs`, slowpaint branch), for a pass during which no
fresher frame arrives: `perm` is the shuffled coordinate list (some
permutation of `(0..w) × (0..h)`), and every entry of it is sent — this
branch has no transparency check. -/
def Painter.slowpaintSends (area : Rect) (off : Nat × Nat)
    (img : Nat → Nat → Color) (perm : List (Nat × Nat)) :
    List (Nat × Nat × Color) :=
  perm.map fun p => (p.1 + area.x + off.1, p.2 + area.y + off.2, img p.1 p.2)

/-- Iteration order of the nested scanline loops of `Painter::work`: `x` is
the outer loop variable, `y` the inner one. -/
def Painter.scanlineOrder (w h : Nat) : List (Nat × Nat) :=
  (List.range w).flatMap fun x => (List.range h).map fun y => (x, y)

/-- Row-major order as claim C7 words it (for each row `y` all columns `x`
before `y` advances); stated from the spec's words, for comparison with the
order the code actually uses. -/
def rowMajorOrder (w h : Nat) : List (Nat × Nat) :=
  (List.range h).flatMap fun y => (List.range w).map fun x => (x, y)

/-- Characterization of the pixels sent by a scanline pass. -/
theorem mem_scanlineSends (area : Rect) (off : Nat × Nat)
    (img : Nat → Nat → Color) (x y : Nat) (c : Color) :
    (x, y, c) ∈ Painter.scanlineSends area off img ↔
      ∃ lx ly, lx < area.w ∧ ly < area.h ∧ (img lx ly).a ≠ 0 ∧
        x = lx + area.x + off.1 ∧ y = ly + area.y + off.2 ∧ c = img lx ly := by
  simp only [Painter.scanlineSends, List.mem_flatMap, List.mem_filterMap,
    List.mem_range]
  constructor
  · rintro ⟨lx, hlx, ly, hly, hif⟩
    by_cases h : (img lx ly).a = 0
    · simp [h] at hif
    · simp only [h, if_false, Option.some.injEq, Prod.mk.injEq] at hif
      exact ⟨lx, ly, hlx, hly, h, hif.1.symm, hif.2.1.symm, hif.2.2.symm⟩
  · rintro ⟨lx, ly, hlx, hly, hne, hx, hy, hc⟩
    exact ⟨lx, hlx, ly, hly, by simp [hne, hx, hy, hc]⟩

/-- Claim C2 (counterexample): in slow-paint mode a fully transparent pixel
(alpha 0) is sent: with a 1×1 slice, zero offsets, the all-transparent image
and the (unique) shuffled order `[(0,0)]`, `send_pixel` is called once, for
that transparent pixel. -/
theorem claim_C2_cex :
    Painter.slowpaintSends ⟨0, 0, 1, 1⟩ (0, 0) (fun _ _ => ⟨0, 0, 0, 0⟩)
        [(0, 0)] = [(0, 0, ⟨0, 0, 0, 0⟩)] ∧
    (Color.mk 0 0 0 0).a = 0 := by
  decide

/-- Claim C2 (amended): in the default scanline mode the painter never calls
`send_pixel` for a pixel whose alpha channel is 0; in slow-paint mode it
calls `send_pixel` for every entry of the shuffled coordinate list, including
fully transparent pixels (the slow-paint branch has no alpha check). -/
theorem claim_C2 :
    (∀ (area : Rect) (off : Nat × Nat) (img : Nat → Nat → Color)
      (x y : Nat) (c : Color),
      (x, y, c) ∈ Painter.scanlineSends area off img → c.a ≠ 0) ∧
    (∀ (area : Rect) (off : Nat × Nat) (img : Nat → Nat → Color)
      (perm : List (Nat × Nat)),
      (Painter.slowpaintSends area off img perm).length = perm.length ∧
      ∀ p ∈ perm,
        (p.1 + area.x + off.1, p.2 + area.y + off.2, img p.1 p.2) ∈
          Painter.slowpaintSends area off img perm) := by
  constructor
  · intro area off img x y c hmem
    obtain ⟨lx, ly, _, _, hne, _, _, hc⟩ :=
      (mem_scanlineSends area off img x y c).1 hmem
    rw [hc]
    exact hne
  · intro area off img perm
    refine ⟨List.length_map _ _, ?_⟩
    intro p hp
    exact List.mem_map_of_mem _ hp

/-- Witness for claim C2 at a 1×1 opaque slice and a singleton shuffle. -/
theorem claim_C2_witness :
    ((0, 0, Color.mk 9 9 9 7) ∈
      Painter.scanlineSends ⟨0, 0, 1, 1⟩ (0, 0) (fun _ _ => ⟨9, 9, 9, 7⟩) →
      (Color.mk 9 9 9 7).a ≠ 0) ∧
    ((0, 0, Color.mk 9 9 9 7) ∈
      Painter.scanlineSends ⟨0, 0, 1, 1⟩ (0, 0) (fun _ _ => ⟨9, 9, 9, 7⟩)) ∧
    ((0, 0) ∈ ([(0, 0)] : List (Nat × Nat)) →
      (0 + (0 : Nat), 0 + (0 : Nat),
        (fun _ _ => Color.mk 0 0 0 0) 0 0) ∈
        Painter.slowpaintSends ⟨0, 0, 0, 0⟩ (0, 0)
          (fun _ _ => Color.mk 0 0 0 0) [(0, 0)]) :=
  ⟨claim_C2.1 ⟨0, 0, 1, 1⟩ (0, 0) (fun _ _ => ⟨9, 9, 9, 7⟩) 0 0 ⟨9, 9, 9, 7⟩,
    by decide,
    fun hp => by
      have h := (claim_C2.2 ⟨0, 0, 0, 0⟩ (0, 0)
        (fun _ _ => Color.mk 0 0 0 0) [(0, 0)]).2 (0, 0) hp
      simpa using h⟩

/-- Distribute `filterMap` over `flatMap`. -/
theorem filterMap_flatMap_eq {α β γ : Type} (l : List α) (f : α → List β)
    (g : β → Option γ) :
    (l.flatMap f).filterMap g = l.flatMap fun a => (f a).filterMap g :=
  List.filterMap_flatMap l f g

/-- The scanline iteration order is column-major: entry `k` of the sequence
is column `k / h`, row `k % h`. -/
theorem scanlineOrder_eq (w h : Nat) :
    Painter.scanlineOrder w h =
      (List.range (w * h)).map fun k => (k / h, k % h) := by
  induction w with
  | zero => simp [Painter.scanlineOrder]
  | succ w ih =>
    have lhs : Painter.scanlineOrder (w + 1) h =
        Painter.scanlineOrder w h ++ ((List.range h).map fun y => (w, y)) := by
      simp [Painter.scanlineOrder, List.range_succ]
    have rhs : ((List.range ((w + 1) * h)).map fun k => (k / h, k % h)) =
        ((List.range (w * h)).map fun k => (k / h, k % h)) ++
          ((List.range h).map fun j => ((w * h + j) / h, (w * h + j) % h)) := by
      rw [Nat.succ_mul, List.range_add, List.map_append, List.map_map]
      rfl
    have tail : ((List.range h).map fun j => ((w * h + j) / h, (w * h + j) % h)) =
        (List.range h).map fun y => (w, y) := by
      apply List.map_congr_left
      intro j hj
      have hjh : j < h := List.mem_range.1 hj
      have hh : 0 < h := lt_of_le_of_lt (Nat.zero_le j) hjh
      have hdiv : (w * h + j) / h = w := by
        rw [Nat.mul_comm, Nat.mul_add_div hh, Nat.div_eq_of_lt hjh,
          Nat.add_zero]
      have hmod : (w * h + j) % h = j := by
        rw [Nat.mul_comm, Nat.mul_add_mod, Nat.mod_eq_of_lt hjh]
      rw [hdiv, hmod]
    rw [lhs, ih, rhs, tail]

/-- Claim C7 (counterexample): on a 2×2 slice with an all-opaque image the
coordinates offered to `send_pixel` are `(0,0), (0,1), (1,0), (1,1)` —
column-major — which differs from the row-major order
`(0,0), (1,0), (0,1), (1,1)` the claim states. -/
theorem claim_C7_cex :
    (Painter.scanlineSends ⟨0, 0, 2, 2⟩ (0, 0) (fun _ _ => ⟨1, 1, 1, 255⟩)).map
        (fun e => (e.1, e.2.1)) = [(0, 0), (0, 1), (1, 0), (1, 1)] ∧
    rowMajorOrder 2 2 = [(0, 0), (1, 0), (0, 1), (1, 1)] ∧
    ([(0, 0), (0, 1), (1, 0), (1, 1)] : List (Nat × Nat)) ≠
      [(0, 0), (1, 0), (0, 1), (1, 1)] := by
  decide

/-- Claim C7 (amended): in the default mode the painter visits its slice in
column-major order — entry `k` of the iteration sequence is column `k / h`,
row `k % h`, i.e. for each column `x` from 0 to `w-1` all rows `y` from 0 to
`h-1` are visited in order before `x` advances — and the pixels offered to
`send_pixel` are exactly that sequence filtered by the transparency skip. -/
theorem claim_C7 :
    (∀ w h : Nat, Painter.scanlineOrder w h =
      (List.range (w * h)).map fun k => (k / h, k % h)) ∧
    (∀ (area : Rect) (off : Nat × Nat) (img : Nat → Nat → Color),
      Painter.scanlineSends area off img =
        (Painter.scanlineOrder area.w area.h).filterMap fun p =>
          if (img p.1 p.2).a = 0 then none
          else some (p.1 + area.x + off.1, p.2 + area.y + off.2, img p.1 p.2)) := by
  refine ⟨scanlineOrder_eq, ?_⟩
  intro area off img
  rw [Painter.scanlineSends, Painter.scanlineOrder, filterMap_flatMap_eq]
  simp only [List.filterMap_map]
  rfl

/-- The slice `Canvas::spawn_painters` (`src/pix/canvas.rs`) hands to painter
`i`: `width = size.0 / painter_count` and
`Rect::from(i * width, 0, width, size.1)`.  The `u16` arithmetic of the
source cannot wrap under claim C6's hypotheses (`i < N ≤ W < 2^16` gives
`i * (W / N) < W`), so the model uses plain `Nat`. -/
def painter_area (painter_count W H i : Nat) : Rect :=
  ⟨i * (W / painter_count), 0, W / painter_count, H⟩

/-- Claim C6: for painter count `N > 0` and canvas width `W ≥ N`, painter `i`
receives slice `Rect { x := i * (W / N), y := 0, w := W / N, h := H }`; the
`N` slices are pairwise disjoint, and their union is exactly
`[0, (W / N) * N) × [0, H)`. -/
theorem claim_C6 (N W H : Nat) (hN : 0 < N) (hW : N ≤ W) :
    (∀ i, painter_area N W H i = ⟨i * (W / N), 0, W / N, H⟩) ∧
    (∀ i j (p : Nat × Nat), i < N → j < N → i ≠ j →
      ¬((painter_area N W H i).contains p ∧ (painter_area N W H j).contains p)) ∧
    (∀ p : Nat × Nat,
      (∃ i, i < N ∧ (painter_area N W H i).contains p) ↔
        p.1 < W / N * N ∧ p.2 < H) := by
  have hk : 0 < W / N := Nat.div_pos hW hN
  refine ⟨fun _ => rfl, ?_, ?_⟩
  · intro i j p hi hj hij hc
    simp only [painter_area, Rect.contains] at hc
    obtain ⟨⟨hix, hix2, _, _⟩, hjx, hjx2, _, _⟩ := hc
    rcases Nat.lt_or_ge i j with h | h
    · have h2 : (i + 1) * (W / N) ≤ j * (W / N) :=
        Nat.mul_le_mul_right _ h
      rw [Nat.succ_mul] at h2
      exact absurd (lt_of_lt_of_le (lt_of_lt_of_le hix2 h2) hjx)
        (lt_irrefl p.1)
    · have hji : j < i := by omega
      have h2 : (j + 1) * (W / N) ≤ i * (W / N) :=
        Nat.mul_le_mul_right _ hji
      rw [Nat.succ_mul] at h2
      exact absurd (lt_of_lt_of_le (lt_of_lt_of_le hjx2 h2) hix)
        (lt_irrefl p.1)
  · intro p
    simp only [painter_area, Rect.contains]
    constructor
    · rintro ⟨i, hi, _, h2, _, h4⟩
      have h5 : (i + 1) * (W / N) ≤ N * (W / N) :=
        Nat.mul_le_mul_right _ hi
      rw [Nat.succ_mul] at h5
      refine ⟨?_, by omega⟩
      rw [Nat.mul_comm]
      exact lt_of_lt_of_le h2 h5
    · rintro ⟨hp1, hp2⟩
      refine ⟨p.1 / (W / N), ?_, Nat.div_mul_le_self p.1 (W / N), ?_,
        Nat.zero_le _, by omega⟩
      · rw [Nat.div_lt_iff_lt_mul hk]
        rw [Nat.mul_comm] at hp1
        exact hp1
      · calc p.1 = W / N * (p.1 / (W / N)) + p.1 % (W / N) :=
            (Nat.div_add_mod p.1 (W / N)).symm
          _ < W / N * (p.1 / (W / N)) + W / N :=
            Nat.add_lt_add_left (Nat.mod_lt _ hk) _
          _ = p.1 / (W / N) * (W / N) + W / N := by rw [Nat.mul_comm]

/-- Witness for claim C6 at `N = 2`, `W = 10`, `H = 1`: the coverage
characterization of the slice union, evaluated at the point `(9, 0)`. -/
theorem claim_C6_witness :
    (0 < 2 ∧ 2 ≤ 10) ∧
    ((∃ i, i < 2 ∧ (painter_area 2 10 1 i).contains (9, 0)) ↔
      9 < 10 / 2 * 2 ∧ 0 < 1) :=
  ⟨⟨by decide, by decide⟩,
    (claim_C6 2 10 1 (by decide) (by decide)).2.2 (9, 0)⟩

/-- Echo packet kinds, from `src/painter/icmp.rs`. -/
inductive EchoDirection
  | request
  | reply
deriving DecidableEq, Repr

/-- Packet-type constants from `src/painter/icmp.rs`. -/
def ECHO_REQUEST_V4 : Nat := 8

def ECHO_REQUEST_V6 : Nat := 128

def ECHO_REPLY_V4 : Nat := 0

def ECHO_REPLY_V6 : Nat := 129

/-- The type byte `Icmp::encode` selects from the target's address family and
the echo direction. -/
def icmpTypeByte (is_v4 : Bool) (d : EchoDirection) : Nat :=
  match is_v4, d with
  | true, EchoDirection.request => ECHO_REQUEST_V4
  | true, EchoDirection.reply => ECHO_REPLY_V4
  | false, EchoDirection.request => ECHO_REQUEST_V6
  | false, EchoDirection.reply => ECHO_REPLY_V6

/-- State of an `Icmp` packet from `src/painter/icmp.rs`.  The target socket
address is abstracted to its address family `is_v4`, the only part the
embedded code inspects. -/
structure Icmp where
  is_v4 : Bool
  direction : EchoDirection
  identifier : Nat
  packet : List Nat
  payload : List Nat
  current_sequence_number : Nat
deriving DecidableEq, Repr

/-- `Icmp::new`: 8 zero bytes of packet, empty payload, sequence number 0. -/
def Icmp.new (is_v4 : Bool) (identifier : Nat) (direction : EchoDirection) :
    Icmp :=
  ⟨is_v4, direction, identifier, List.replicate 8 0, [], 0⟩

/-- The 16-bit big-endian word sum of `Icmp::checksum`: words are byte pairs,
a trailing odd byte is the high byte of its word, and the accumulator is a
wrapping `u32` (hence the explicit `% 2^32`). -/
def sumWordsWrap : List Nat → Nat → Nat
  | [], acc => acc
  | [b], acc => (acc + b * 256) % 4294967296
  | b0 :: b1 :: rest, acc => sumWordsWrap rest ((acc + (b0 * 256 + b1)) % 4294967296)

/-- The carry-folding loop of `Icmp::checksum`
(`while (sum >> 16) > 0 { sum = (sum & 0xffff) + (sum >> 16) }`), run on
fuel.  Each iteration strictly decreases `sum` (when `sum ≥ 2^16`,
`sum % 2^16 + sum / 2^16 < sum`), so fuel equal to the initial value always
suffices to reach the loop's exit condition. -/
def foldCarryAux : Nat → Nat → Nat
  | 0, s => s
  | fuel + 1, s => if 65536 ≤ s then foldCarryAux fuel (s % 65536 + s / 65536) else s

/-- `Icmp::checksum`'s value computation: 16-bit one's-complement sum over
the given bytes, carries folded, then complemented and truncated to `u16`
(`!sum as u16` is `65535 - folded` for `folded < 2^16`; the explicit
`% 65536` mirrors the truncation). -/
def internetChecksum (bytes : List Nat) : Nat :=
  let s := sumWordsWrap bytes 0
  65535 - foldCarryAux s s % 65536

/-- `Icmp::checksum`'s effect on the packet: compute the sum over the packet
as it currently stands (the checksum bytes 2..4 are NOT zeroed first) and
store it big-endian at bytes 2 and 3. -/
def Icmp.checksum (p : List Nat) : List Nat :=
  let cs := internetChecksum p
  (p.set 2 (cs / 256)).set 3 (cs % 256)

/-- `Icmp::encode`: truncate the packet to the 8-byte header, rewrite type,
code, identifier, zero the sequence bytes 6 and 7, append a copy of the
payload, and recompute the checksum in place. -/
def Icmp.encode (st : Icmp) : Icmp :=
  let p := st.packet.take 8
  let p := p.set 0 (icmpTypeByte st.is_v4 st.direction)
  let p := p.set 1 0
  let p := (p.set 4 (st.identifier / 256 % 256)).set 5 (st.identifier % 256)
  let p := (p.set 6 0).set 7 0
  let p := p ++ st.payload
  { st with packet := Icmp.checksum p }

/-- `Icmp::update_seq`: zero the checksum bytes, write the sequence number
big-endian at bytes 6 and 7, recompute the checksum. -/
def Icmp.update_seq (st : Icmp) (seq : Nat) : Icmp :=
  let p := (st.packet.set 2 0).set 3 0
  let p := (p.set 6 (seq / 256 % 256)).set 7 (seq % 256)
  { st with packet := Icmp.checksum p }

/-- `Icmp::send`: encode, transmit the encoded packet, then increment the
sequence counter (wrapping `u16`) and rewrite sequence and checksum for the
next send.  Returns `(transmitted bytes, new state)`. -/
def Icmp.send (st : Icmp) : List Nat × Icmp :=
  let st1 := st.encode
  let transmitted := st1.packet
  let seq' := (st1.current_sequence_number + 1) % 65536
  (transmitted, Icmp.update_seq { st1 with current_sequence_number := seq' } seq')

/-- The packets transmitted by `n` successive calls to `Icmp::send`. -/
def Icmp.transmitted (st : Icmp) : Nat → List (List Nat)
  | 0 => []
  | n + 1 => st.send.1 :: Icmp.transmitted st.send.2 n

/-- A packet with its checksum field zeroed. -/
def zeroChecksumField (p : List Nat) : List Nat :=
  (p.set 2 0).set 3 0

/-- The big-endian checksum field of a packet. -/
def storedChecksum (p : List Nat) : Nat :=
  256 * p.getD 2 0 + p.getD 3 0

/-- The big-endian sequence-number field of a packet. -/
def seqFieldOf (p : List Nat) : Nat :=
  256 * p.getD 6 0 + p.getD 7 0

/-- Claim C4, evaluated at the failing input (two successive `Icmp::send`
calls on `Icmp::new(IPv6 target, identifier 0x6866, Request)`): the first
transmitted packet carries sequence 0 and a checksum equal to the RFC 1071
value of its zero-checksum image, but the second transmitted packet again
carries sequence 0 — not 1 as the claim requires — and its checksum field
0x0001 differs from the RFC 1071 value 0x1799 of its zero-checksum image,
because `encode` zeroes the sequence bytes and computes the checksum over a
buffer still holding the previous checksum.  Meanwhile the state's sequence
counter after two sends is 2, matching the intent documented on
`Icmp::send`. -/
theorem claim_C4_code_bug :
    (Icmp.transmitted (Icmp.new false 0x6866 EchoDirection.request) 2).length = 2 ∧
    (Icmp.transmitted (Icmp.new false 0x6866 EchoDirection.request) 2).getD 0 [] =
      [128, 0, 0x17, 0x99, 0x68, 0x66, 0, 0] ∧
    storedChecksum
        ((Icmp.transmitted (Icmp.new false 0x6866 EchoDirection.request) 2).getD 0 []) =
      internetChecksum (zeroChecksumField
        ((Icmp.transmitted (Icmp.new false 0x6866 EchoDirection.request) 2).getD 0 [])) ∧
    seqFieldOf
        ((Icmp.transmitted (Icmp.new false 0x6866 EchoDirection.request) 2).getD 0 []) = 0 ∧
    (Icmp.transmitted (Icmp.new false 0x6866 EchoDirection.request) 2).getD 1 [] =
      [128, 0, 0, 1, 0x68, 0x66, 0, 0] ∧
    seqFieldOf
        ((Icmp.transmitted (Icmp.new false 0x6866 EchoDirection.request) 2).getD 1 []) = 0 ∧
    storedChecksum
        ((Icmp.transmitted (Icmp.new false 0x6866 EchoDirection.request) 2).getD 1 []) ≠
      internetChecksum (zeroChecksumField
        ((Icmp.transmitted (Icmp.new false 0x6866 EchoDirection.request) 2).getD 1 [])) ∧
    ((Icmp.new false 0x6866 EchoDirection.request).send.2.send.2.current_sequence_number) = 2 := by
  decide

/-- `Pingv6Client::send_pixel` from `src/pix/client.rs`: build the
destination address from the configured `/64` prefix (`target_network`, four
16-bit words) followed by `x`, `y`, `(r << 8) | g`, `b << 8`; construct a
fresh `Icmp` echo request with identifier `ID = 0x6866` for that (IPv6)
address; send it once.  The result lists the `(destination address words,
transmitted packet bytes)` pairs of the call. -/
def Pingv6Client.send_pixel (target_network : List Nat) (x y : Nat) (c : Color) :
    List (List Nat × List Nat) :=
  let target_address := target_network ++ [x, y, (c.r <<< 8) ||| c.g, c.b <<< 8]
  let packet := Icmp.new false 0x6866 EchoDirection.request
  [(target_address, packet.send.1)]

/-- Claim C9: for every pixel and color, `Pingv6Client::send_pixel` sends
exactly one ICMPv6 Echo Request (type byte 128 = `ECHO_REQUEST_V6`, code 0,
identifier 0x6866 big-endian at bytes 4..6, no payload beyond the 8-byte
header, and a checksum valid for the zero-checksum image), addressed to the
configured `/64` prefix followed by the four 16-bit words `x`, `y`,
`(r << 8) | g` and `b << 8`. -/
theorem claim_C9 (net : List Nat) (x y : Nat) (c : Color) :
    Pingv6Client.send_pixel net x y c =
      [(net ++ [x, y, (c.r <<< 8) ||| c.g, c.b <<< 8],
        [128, 0, 0x17, 0x99, 0x68, 0x66, 0, 0])] ∧
    (Pingv6Client.send_pixel net x y c).length = 1 ∧
    icmpTypeByte false EchoDirection.request = 128 ∧
    ([128, 0, 0x17, 0x99, 0x68, 0x66, 0, 0] : List Nat).length = 8 ∧
    storedChecksum [128, 0, 0x17, 0x99, 0x68, 0x66, 0, 0] =
      internetChecksum
        (zeroChecksumField [128, 0, 0x17, 0x99, 0x68, 0x66, 0, 0]) := by
  refine ⟨rfl, rfl, rfl, rfl, by decide⟩

/-- The ASCII whitespace characters matched by the size regex's `\s` (the
Rust regex also matches non-ASCII Unicode whitespace; the model is exact on
ASCII reply lines, which is what the claims quantify over here). -/
def isSpaceRx (c : Char) : Bool :=
  c = ' ' ∨ c.toNat = 9 ∨ c.toNat = 10 ∨ c.toNat = 11 ∨ c.toNat = 12 ∨
    c.toNat = 13

/-- The `[[:digit:]]` class of the size regex. -/
def isDigitRx (c : Char) : Bool :=
  48 ≤ c.toNat ∧ c.toNat ≤ 57

/-- Decimal value of a digit capture, as `str::parse` reads it (the `u16`
range check is applied separately, where the code calls `.expect`). -/
def digitsVal (l : List Char) : Nat :=
  l.foldl (fun acc c => acc * 10 + (c.toNat - 48)) 0

/-- Matcher for `PIX_SERVER_SIZE_REGEX` =
`^(?i)\s*SIZE\s+([[:digit:]]+)\s+([[:digit:]]+)\s*$` from
`src/pix/client.rs`, returning the two captures' values.  Because the pieces
of the regex are separated by disjoint character classes, greedy maximal
munch is exact, so this deterministic scan recognizes the same lines and
captures the same groups as the regex. -/
def parseSizeLine (line : List Char) : Option (Nat × Nat) :=
  let s0 := line.dropWhile isSpaceRx
  if (s0.take 4).map Char.toLower = "size".toList then
    let s1 := s0.drop 4
    let sp1 := s1.takeWhile isSpaceRx
    let s2 := s1.dropWhile isSpaceRx
    let d1 := s2.takeWhile isDigitRx
    let s3 := s2.dropWhile isDigitRx
    let sp2 := s3.takeWhile isSpaceRx
    let s4 := s3.dropWhile isSpaceRx
    let d2 := s4.takeWhile isDigitRx
    let s5 := s4.dropWhile isDigitRx
    if sp1 ≠ [] ∧ d1 ≠ [] ∧ sp2 ≠ [] ∧ d2 ≠ [] ∧ s5.dropWhile isSpaceRx = []
    then some (digitsVal d1, digitsVal d2)
    else none
  else none

/-- The three ways `TextTcpClient::read_screen_size` can come back from
processing a reply line: return `Ok((w, h))`, return the malformed-data
error, or panic (the `.expect` on `parse::<u16>()` when a captured number
does not fit `u16`). -/
inductive SizeResult
  | ok (w h : Nat)
  | malformedErr
  | panicked
deriving DecidableEq, Repr

/-- The command `read_screen_size` writes before reading the reply. -/
def sizeRequest : List Char :=
  "SIZE\n".toList

/-- Reply-line processing of `TextTcpClient::read_screen_size`
(`src/pix/client.rs`): regex match, then `parse::<u16>().expect(...)` on both
captures — `Ok` when both fit `u16`, the malformed-data error when the regex
does not match, and a panic when a capture overflows `u16`. -/
def read_screen_size (line : List Char) : SizeResult :=
  match parseSizeLine line with
  | none => SizeResult.malformedErr
  | some (w, h) =>
    if w < 65536 ∧ h < 65536 then SizeResult.ok w h else SizeResult.panicked

/-- Claim C8 (counterexample): the reply line `"SIZE 99999 1"` matches the
size regex, but 99999 does not fit a `u16`, so `read_screen_size` panics in
the `.expect` — it neither returns the extracted numbers nor the
malformed-response error. -/
theorem claim_C8_cex :
    read_screen_size ("SIZE 99999 1".toList) = SizeResult.panicked ∧
    SizeResult.panicked ≠ SizeResult.ok 99999 1 ∧
    SizeResult.panicked ≠ SizeResult.malformedErr := by
  decide

/-- Claim C8 (amended): `read_screen_size` sends `"SIZE\n"`, reads one reply
line, and for every ASCII reply line terminates in exactly one of three
ways: `Ok` with the two decimal numbers extracted by the size regex when
both fit `u16`, the malformed-response error when the regex does not match,
or a panic when the regex matches but a captured number exceeds `u16::MAX`;
in particular it returns (100,200) for `"SIZE 100 200"`, (1920,1080) for
`"size\t1920  1080\n"`, and (1,1) for `"  SIZE 1 1  "`. -/
theorem claim_C8 (line : List Char) (_hascii : ∀ c ∈ line, c.toNat < 128) :
    sizeRequest = "SIZE\n".toList ∧
    ((∃ w h, parseSizeLine line = some (w, h) ∧ w < 65536 ∧ h < 65536 ∧
        read_screen_size line = SizeResult.ok w h) ∨
      (parseSizeLine line = none ∧
        read_screen_size line = SizeResult.malformedErr) ∨
      (∃ w h, parseSizeLine line = some (w, h) ∧ ¬(w < 65536 ∧ h < 65536) ∧
        read_screen_size line = SizeResult.panicked)) ∧
    read_screen_size ("SIZE 100 200".toList) = SizeResult.ok 100 200 ∧
    read_screen_size ("size\t1920  1080\n".toList) = SizeResult.ok 1920 1080 ∧
    read_screen_size ("  SIZE 1 1  ".toList) = SizeResult.ok 1 1 := by
  refine ⟨rfl, ?_, by decide, by decide, by decide⟩
  cases h : parseSizeLine line with
  | none =>
    exact Or.inr (Or.inl ⟨rfl, by simp [read_screen_size, h]⟩)
  | some p =>
    by_cases hb : p.1 < 65536 ∧ p.2 < 65536
    · exact Or.inl ⟨p.1, p.2, rfl, hb.1, hb.2,
        by simp [read_screen_size, h, hb]⟩
    · exact Or.inr (Or.inr ⟨p.1, p.2, rfl, hb,
        by simp [read_screen_size, h, hb]⟩)

/-- Witness for claim C8 at the ASCII reply line `"SIZE 100 200"`. -/
theorem claim_C8_witness :
    read_screen_size ("SIZE 100 200".toList) = SizeResult.ok 100 200 :=
  (claim_C8 ("SIZE 100 200".toList) (by decide)).2.2.1

/-- Modelled from the spec: the offset-taking variant of
`TextTcpClient::connect` is not among the provided sources
(`Canvas::spawn_painter` passes it a fifth `Option` offset argument, which
the `connect` in the provided `client.rs` does not declare).  Per the spec
(`OFFSET x y\n` is "sent once at connect"; scenario S3: connect emits
`OFFSET 3 4\n`), connecting emits exactly one decimal `OFFSET` command when
an offset is configured, and nothing otherwise. -/
def connectOutput (off : Option (Nat × Nat)) : List Char :=
  match off with
  | none => []
  | some (x, y) =>
    "OFFSET ".toList ++ HEX_TO_STR_16 x ++ [' '] ++ HEX_TO_STR_16 y ++ ['\n']

/-- From `Canvas::spawn_painter` (`src/pix/canvas.rs`): the offset argument
handed to `TextTcpClient::connect`. -/
def connectOffsetArg (use_offset_command : Bool) (off : Nat × Nat) :
    Option (Nat × Nat) :=
  if use_offset_command then some off else none

/-- From `Canvas::spawn_painter` (`src/pix/canvas.rs`): the local pixel
offset the painter runs with — "only apply offset in painter if the OFFSET
command is not used". -/
def painterLocalOffset (use_offset_command : Bool) (off : Nat × Nat) :
    Nat × Nat :=
  if use_offset_command then (0, 0) else off

/-- Claim C3: with `use_offset_command` set, connecting emits exactly the
single command `"OFFSET x y\n"`, the painter is given the `(0,0)` local
offset, and the coordinates offered to `send_pixel` are the slice-local
coordinates plus the slice origin only — the draw offset is omitted. -/
theorem claim_C3 (off : Nat × Nat) (area : Rect) (img : Nat → Nat → Color)
    (x y : Nat) (c : Color) :
    connectOutput (connectOffsetArg true off) =
      "OFFSET ".toList ++ HEX_TO_STR_16 off.1 ++ [' '] ++
        HEX_TO_STR_16 off.2 ++ ['\n'] ∧
    painterLocalOffset true off = (0, 0) ∧
    ((x, y, c) ∈ Painter.scanlineSends area (painterLocalOffset true off) img ↔
      ∃ lx ly, lx < area.w ∧ ly < area.h ∧ (img lx ly).a ≠ 0 ∧
        x = lx + area.x ∧ y = ly + area.y ∧ c = img lx ly) := by
  refine ⟨?_, rfl, ?_⟩
  · rcases off with ⟨ox, oy⟩
    rfl
  · have h := mem_scanlineSends area
      (painterLocalOffset true off) img x y c
    simpa [painterLocalOffset] using h
